import Mathlib

/-!
Shallow embedding of the course-scheduler program (`coursetester.py`).

Times of day are Python floats in the source; every value the program's own
time parser produces has the form `hour + minute / 60`, which we embed as an
exact rational (`ℚ`).  Day sets are Python strings of single-character
weekday codes, embedded as `String` with membership taken character by
character, exactly as the source's `for day in self.days: if day in
other.days` loop does.  The interactive yes/no/cancel dialog is embedded as
an injected decision function returning accept/reject/abort.
-/

/-- Python `int(x)` truncation toward zero on a rational. -/
def pyTrunc (q : ℚ) : ℤ := q.num.tdiv (q.den : ℤ)

/-- Mathematical floor of a rational, used to embed Python `x % 1`. -/
def pyFloorQ (q : ℚ) : ℤ := q.num.fdiv (q.den : ℤ)

/-- Python `x % 1` on a rational: the fractional part, always in `[0, 1)`. -/
def pyMod1 (q : ℚ) : ℚ := q - (pyFloorQ q : ℚ)

/-- `TimeSlot` from the source: days of week as a string of one-character
codes, start and end times of day as numbers (24-hour clock). -/
structure TimeSlot where
  days : String
  start_time : ℚ
  end_time : ℚ
deriving DecidableEq, Repr

/-- `TimeSlot.__init__` from the source: it merely stores its three
arguments, performing no validation whatsoever. -/
def TimeSlot.init (days : String) (start_time end_time : ℚ) : TimeSlot :=
  ⟨days, start_time, end_time⟩

/-- `TimeSlot.has_time_conflict` from the source: scan the characters of
`self.days`; whenever a day also occurs in `other.days`, report a conflict
unless `self.end_time <= other.start_time or self.start_time >=
other.end_time`. -/
def TimeSlot.has_time_conflict (a b : TimeSlot) : Bool :=
  a.days.data.any (fun day =>
    b.days.data.contains day &&
      !(decide (a.end_time ≤ b.start_time) || decide (a.start_time ≥ b.end_time)))

/-- `Course` from the source: a course number and an ordered list of time
slots. -/
structure Course where
  course_number : String
  time_slots : List TimeSlot
deriving DecidableEq, Repr

/-- `Course.add_time_slot` from the source: append a new `TimeSlot`. -/
def Course.add_time_slot (c : Course) (days : String) (start_time end_time : ℚ) : Course :=
  { c with time_slots := c.time_slots ++ [⟨days, start_time, end_time⟩] }

/-- `Course.has_time_conflict` from the source: pairwise scan of the two
courses' slot lists. -/
def Course.has_time_conflict (a b : Course) : Bool :=
  a.time_slots.any (fun my_slot =>
    b.time_slots.any (fun other_slot => my_slot.has_time_conflict other_slot))

/-- The `courses` mapping of `CourseRegistration`: a Python dict from
category name to its ordered list of courses, embedded as an association
list in key-insertion order (Python dicts preserve insertion order). -/
abbrev Catalog := List (String × List Course)

/-- Outcome of the `messagebox.askyesnocancel` dialog in `process_courses`:
`Yes` accepts the course, `No` rejects it, `Cancel` (Python `None`) aborts
the whole walk. -/
inductive Decision where
  | accept
  | reject
  | abort
deriving DecidableEq, Repr

/-- `CourseRegistration.has_conflict_with_schedule` from the source: the
candidate conflicts with some already-scheduled course. -/
def has_conflict_with_schedule (course : Course) (schedule : List Course) : Bool :=
  schedule.any (fun scheduled_course => course.has_time_conflict scheduled_course)

/-- The inner loop of `CourseRegistration.process_courses` over one
category's course list.  A conflicting course is skipped silently; otherwise
the decision dialog runs: `Cancel` returns from `process_courses`
immediately (second component `true`), `Yes` appends the course and breaks
out of the category's loop, `No` continues with the next course. -/
def process_category (decide : String → Course → Decision) (category : String) :
    List Course → List Course → List Course × Bool
  | [], schedule => (schedule, false)
  | course :: rest, schedule =>
    if has_conflict_with_schedule course schedule then
      process_category decide category rest schedule
    else
      match decide category course with
      | Decision.abort => (schedule, true)
      | Decision.accept => (schedule ++ [course], false)
      | Decision.reject => process_category decide category rest schedule

/-- The outer loop of `CourseRegistration.process_courses`: categories are
processed in the given order; an abort inside a category returns the
schedule accumulated so far and stops the whole walk. -/
def process_courses (decide : String → Course → Decision) :
    Catalog → List Course → List Course
  | [], schedule => schedule
  | (category, cs) :: rest, schedule =>
    match process_category decide category cs schedule with
    | (schedule2, true) => schedule2
    | (schedule2, false) => process_courses decide rest schedule2

/-- `CourseRegistration.generate_schedule` resets `self.schedule` to the
empty list before walking the catalog, so a walk always starts from an
empty schedule. -/
def generate_schedule (decide : String → Course → Decision) (catalog : Catalog) : List Course :=
  process_courses decide catalog []

/-- One presentation event of the walk: which course was shown, in which
category, and what the accumulated schedule was at that moment. -/
structure Presented where
  category : String
  course : Course
  schedule : List Course
deriving DecidableEq, Repr

/-- Instrumented twin of `process_category` that also records the list of
presentation events (courses actually shown to the decision dialog). -/
def process_category_tr (decide : String → Course → Decision) (category : String) :
    List Course → List Course → List Course × Bool × List Presented
  | [], schedule => (schedule, false, [])
  | course :: rest, schedule =>
    if has_conflict_with_schedule course schedule then
      process_category_tr decide category rest schedule
    else
      match decide category course with
      | Decision.abort => (schedule, true, [⟨category, course, schedule⟩])
      | Decision.accept => (schedule ++ [course], false, [⟨category, course, schedule⟩])
      | Decision.reject =>
        let r := process_category_tr decide category rest schedule
        (r.1, r.2.1, ⟨category, course, schedule⟩ :: r.2.2)

/-- Instrumented twin of `process_courses` recording all presentation
events of the walk. -/
def process_courses_tr (decide : String → Course → Decision) :
    Catalog → List Course → List Course × List Presented
  | [], schedule => (schedule, [])
  | (category, cs) :: rest, schedule =>
    match process_category_tr decide category cs schedule with
    | (schedule2, true, tr) => (schedule2, tr)
    | (schedule2, false, tr) =>
      let r := process_courses_tr decide rest schedule2
      (r.1, tr ++ r.2)

/-- The decision function that accepts every course it is shown; since the
walk only ever shows compatible courses, this accepts the first compatible
offering of each category. -/
def accept_first_compatible : String → Course → Decision := fun _ _ => Decision.accept

/-- `l ++ l ++ ⋯ ++ l`, `n` copies. -/
def selfAppend (n : ℕ) (l : List Course) : List Course :=
  match n with
  | 0 => []
  | n + 1 => l ++ selfAppend n l

/-- The in-memory `courses` mapping after `load_courses_from_file` has run
`n` times over the same persisted file: the loader appends every course of
the file to its category's list and never clears the mapping, so each
category ends up holding `n` copies of its course list, in order, with the
category key order unchanged. -/
def coursesAfterLoads (n : ℕ) (file : Catalog) : Catalog :=
  file.map (fun e => (e.1, selfAppend n e.2))

/-! ## Time parsing (`convert_time_to_float`) and formatting (`format_time`)

The parser works on Python strings; we embed the string operations it uses
(`str.lower`, substring containment via `in`, `str.replace`, `str.split`,
`int(...)`) character-exactly on `List Char`. -/

/-- Python substring test `pat in s`. -/
def containsSub (s pat : List Char) : Bool :=
  pat.isPrefixOf s ||
    match s with
    | [] => false
    | _ :: rest => containsSub rest pat

/-- Python `s.replace(ab, "")` for a two-character pattern `ab`:
left-to-right, non-overlapping removal of every occurrence. -/
def removePat2 (a b : Char) : List Char → List Char
  | x :: y :: rest =>
    if x = a && y = b then removePat2 a b rest
    else x :: removePat2 a b (y :: rest)
  | other => other

/-- Python `s.split(sep)` for a one-character separator. -/
def splitOnChar (sep : Char) : List Char → List (List Char)
  | [] => [[]]
  | c :: rest =>
    let r := splitOnChar sep rest
    if c = sep then [] :: r
    else
      match r with
      | h :: t => (c :: h) :: t
      | [] => [[c]]

/-- Python `s.split(sep)` for a two-character separator such as `": "`. -/
def splitPat2 (a b : Char) : List Char → List (List Char)
  | x :: y :: rest =>
    if x = a && y = b then [] :: splitPat2 a b rest
    else
      match splitPat2 a b (y :: rest) with
      | h :: t => (x :: h) :: t
      | [] => [[x]]
  | other => [other]

/-- Python `s.split(sep, 1)` for a one-character separator: split at the
first occurrence only; `none` when the separator does not occur. -/
def splitOnceChar (sep : Char) : List Char → Option (List Char × List Char)
  | [] => none
  | c :: rest =>
    if c = sep then some ([], rest)
    else
      match splitOnceChar sep rest with
      | some (l, r) => some (c :: l, r)
      | none => none

/-- The whitespace characters Python `str.strip` and `int(...)` discard. -/
def pyIsWs (c : Char) : Bool :=
  c = ' ' || c = '\t' || c = '\n' || c = '\x0d' || c = '\x0b' || c = '\x0c'

/-- Python `s.strip()` on a character list. -/
def pyStripChars (l : List Char) : List Char :=
  ((l.dropWhile pyIsWs).reverse.dropWhile pyIsWs).reverse

/-- Python `s.strip()` on a string. -/
def pyStrip (s : String) : String := ⟨pyStripChars s.data⟩

/-- Numeric value of a list of decimal digit characters. -/
def digitsVal (l : List Char) : ℕ :=
  l.foldl (fun acc c => 10 * acc + (c.toNat - 48)) 0

/-- Value of a nonempty all-digit character list, else `none`. -/
def pyIntDigits (l : List Char) : Option ℤ :=
  if l ≠ [] ∧ l.all Char.isDigit then some (digitsVal l : ℤ) else none

/-- Python `int(s)`: surrounding whitespace stripped, one optional sign,
then a nonempty run of decimal digits; anything else raises `ValueError`
(embedded as `none`). -/
def pyInt (l : List Char) : Option ℤ :=
  match pyStripChars l with
  | [] => none
  | c :: rest =>
    if c = '+' then pyIntDigits rest
    else if c = '-' then (pyIntDigits rest).map (fun n => -n)
    else pyIntDigits (c :: rest)

/-- The two kinds of `ValueError` the time parser can raise: the explicit
`raise ValueError("Invalid time format. Use AM/PM.")` (the spec's
`InvalidTimeFormat`), and the `ValueError`s coming out of `int(...)` or
tuple unpacking on malformed digit layouts. -/
inductive TimeParseError where
  | invalidTimeFormat
  | valueError
deriving DecidableEq, Repr

/-- Python `s.lower()` (ASCII case mapping, which covers every character
the program handles). -/
def pyLower (s : String) : String := ⟨s.data.map Char.toLower⟩

/-- `convert_time_to_float` from the source: lower-case the input; if it
contains `"am"`, delete every `"am"` occurrence, split on `":"`, read the
two fields with `int`, and map hour 12 to 0; otherwise if it contains
`"pm"`, do the same but add 12 to any hour other than 12; otherwise raise
the invalid-time-format `ValueError`.  The result is `hour + minute / 60`. -/
def convert_time_to_float (time_str : String) : Except TimeParseError ℚ :=
  let t := (pyLower time_str).data
  if containsSub t ['a', 'm'] then
    let t2 := removePat2 'a' 'm' t
    match splitOnChar ':' t2 with
    | [hs, ms] =>
      match pyInt hs, pyInt ms with
      | some hour, some minute =>
        let hour := if hour = 12 then 0 else hour
        Except.ok ((hour : ℚ) + (minute : ℚ) / 60)
      | _, _ => Except.error TimeParseError.valueError
    | _ => Except.error TimeParseError.valueError
  else if containsSub t ['p', 'm'] then
    let t2 := removePat2 'p' 'm' t
    match splitOnChar ':' t2 with
    | [hs, ms] =>
      match pyInt hs, pyInt ms with
      | some hour, some minute =>
        let hour := if hour ≠ 12 then hour + 12 else hour
        Except.ok ((hour : ℚ) + (minute : ℚ) / 60)
      | _, _ => Except.error TimeParseError.valueError
    | _ => Except.error TimeParseError.valueError
  else Except.error TimeParseError.invalidTimeFormat

/-- Python `f"{m:02d}"` for the minute field. -/
def pad2 (m : ℤ) : String :=
  if 0 ≤ m ∧ m < 10 then "0" ++ toString m else toString m

/-- `format_time` from the source: `hour = int(t)`, `minute = int((t % 1)
* 60)`, `AM` when `hour < 12` else `PM`, hour 0 shown as 12, hours above 12
reduced by 12, minute zero-padded to two digits. -/
def format_time (time_float : ℚ) : String :=
  let hour : ℤ := pyTrunc time_float
  let minute : ℤ := pyTrunc (pyMod1 time_float * 60)
  let am_pm : String := if hour < 12 then "AM" else "PM"
  let hour2 : ℤ := if hour = 0 then 12 else if hour > 12 then hour - 12 else hour
  toString hour2 ++ ":" ++ pad2 minute ++ am_pm

/-! ## Persistence (`add_course`'s file writes and `load_courses_from_file`) -/

/-- The lines `add_course` appends to `courses.txt` for one course: a
`Category:` line, a `Course Number:` line, one line per time slot with a
single leading space, and a terminating blank line. -/
def serializeRecord (category : String) (course : Course) : List String :=
  ("Category: " ++ category) ::
    ("Course Number: " ++ course.course_number) ::
      course.time_slots.map (fun ts =>
        " " ++ ts.days ++ " " ++ format_time ts.start_time ++ "-" ++ format_time ts.end_time)
      ++ [""]

/-- The whole persisted file for a catalog: every course's record, in
catalog order. -/
def serializeCatalog (catalog : Catalog) : List String :=
  (catalog.map (fun e => (e.2.map (serializeRecord e.1)).flatten)).flatten

/-- The Python exceptions the loader can hit on a malformed file
(`IndexError` on the `split(": ")[1]` accesses, `ValueError` on time
parsing or unpacking, method calls on `None`). -/
inductive LoadError where
  | pyError
deriving DecidableEq, Repr

/-- `if category not in self.courses: self.courses[category] = []`. -/
def insertCategoryIfAbsent (cat : String) (courses : Catalog) : Catalog :=
  if courses.any (fun e => e.1 == cat) then courses else courses ++ [(cat, [])]

/-- `self.courses[category].append(course)`. -/
def appendToCategory (cat : String) (c : Course) (courses : Catalog) : Catalog :=
  courses.map (fun e => if e.1 == cat then (e.1, e.2 ++ [c]) else e)

/-- Python `s.startswith(p)` on character lists. -/
def strStartsWith (l p : List Char) : Bool := p.isPrefixOf l

/-- The loop body of `load_courses_from_file`.  Each line is `strip()`ped
first; a `Category:` line registers the category, a `Course Number:` line
starts a fresh course, a line still starting with a space would parse a
time slot (unreachable: a stripped line cannot start with a space), a blank
line appends the current course to the current category, and anything else
is ignored. -/
def loadLines : List String → Catalog → Option String → Option Course → Except LoadError Catalog
  | [], courses, _, _ => Except.ok courses
  | line :: rest, courses, category, course =>
    let l := (pyStrip line).data
    if strStartsWith l ("Category:".data) then
      match (splitPat2 ':' ' ' l).get? 1 with
      | some catChars =>
        loadLines rest (insertCategoryIfAbsent ⟨catChars⟩ courses) (some ⟨catChars⟩) course
      | none => Except.error LoadError.pyError
    else if strStartsWith l ("Course Number:".data) then
      match (splitPat2 ':' ' ' l).get? 1 with
      | some numChars => loadLines rest courses category (some ⟨⟨numChars⟩, []⟩)
      | none => Except.error LoadError.pyError
    else if strStartsWith l (" ".data) then
      match course with
      | none => Except.error LoadError.pyError
      | some c =>
        match splitOnceChar ' ' (l.drop 2) with
        | none => Except.error LoadError.pyError
        | some (daysChars, timesChars) =>
          match splitOnChar '-' timesChars with
          | [st, en] =>
            match convert_time_to_float ⟨st⟩, convert_time_to_float ⟨en⟩ with
            | Except.ok s, Except.ok e =>
              loadLines rest courses category (some (c.add_time_slot ⟨daysChars⟩ s e))
            | _, _ => Except.error LoadError.pyError
          | _ => Except.error LoadError.pyError
    else if l = [] then
      match category, course with
      | some cat, some c => loadLines rest (appendToCategory cat c courses) category course
      | _, _ => Except.error LoadError.pyError
    else loadLines rest courses category course

/-- `load_courses_from_file` over the given file contents, starting from
the current in-memory `courses` mapping (the loader never clears it). -/
def load_courses_from_file (lines : List String) (courses : Catalog) : Except LoadError Catalog :=
  loadLines lines courses none none

/-- The schedule invariant: accepted courses are pairwise non-conflicting. -/
def schedule_no_conflicts (schedule : List Course) : Prop :=
  List.Pairwise (fun a b => a.has_time_conflict b = false) schedule

/-- The ten decimal digit characters. -/
def digitChars : List Char := ['0', '1', '2', '3', '4', '5', '6', '7', '8', '9']

lemma has_time_conflict_iff (a b : TimeSlot) :
    a.has_time_conflict b = true ↔
      ((∃ d, d ∈ a.days.data ∧ d ∈ b.days.data) ∧
        ¬(a.end_time ≤ b.start_time ∨ a.start_time ≥ b.end_time)) := by
  simp only [TimeSlot.has_time_conflict, List.any_eq_true, Bool.and_eq_true,
    List.contains, List.elem_iff, decide_eq_true_eq, Bool.not_eq_true', Bool.or_eq_false_iff,
    decide_eq_false_iff_not]
  constructor
  · rintro ⟨d, hda, hdb, h1, h2⟩
    exact ⟨⟨d, hda, hdb⟩, by tauto⟩
  · rintro ⟨⟨d, hda, hdb⟩, hov⟩
    exact ⟨d, hda, hdb, by tauto, by tauto⟩

lemma slot_conflict_symm (a b : TimeSlot) :
    a.has_time_conflict b = b.has_time_conflict a := by
  cases hab : a.has_time_conflict b <;> cases hba : b.has_time_conflict a <;> try rfl
  · rw [has_time_conflict_iff] at hba
    rw [← Bool.not_eq_true, has_time_conflict_iff] at hab
    obtain ⟨⟨d, hdb, hda⟩, hov⟩ := hba
    exact absurd ⟨⟨d, hda, hdb⟩, by tauto⟩ hab
  · rw [has_time_conflict_iff] at hab
    rw [← Bool.not_eq_true, has_time_conflict_iff] at hba
    obtain ⟨⟨d, hda, hdb⟩, hov⟩ := hab
    exact absurd ⟨⟨d, hdb, hda⟩, by tauto⟩ hba

lemma course_conflict_exists (c d : Course) :
    c.has_time_conflict d = true ↔
      ∃ x ∈ c.time_slots, ∃ y ∈ d.time_slots, x.has_time_conflict y = true := by
  simp only [Course.has_time_conflict, List.any_eq_true]

lemma course_conflict_symm (c d : Course) :
    c.has_time_conflict d = d.has_time_conflict c := by
  cases hcd : c.has_time_conflict d <;> cases hdc : d.has_time_conflict c <;> try rfl
  · obtain ⟨x, hx, y, hy, h⟩ := (course_conflict_exists d c).mp hdc
    rw [slot_conflict_symm] at h
    have h2 : c.has_time_conflict d = true := (course_conflict_exists c d).mpr ⟨y, hy, x, hx, h⟩
    rw [hcd] at h2
    exact Bool.noConfusion h2
  · obtain ⟨x, hx, y, hy, h⟩ := (course_conflict_exists c d).mp hcd
    rw [slot_conflict_symm] at h
    have h2 : d.has_time_conflict c = true := (course_conflict_exists d c).mpr ⟨y, hy, x, hx, h⟩
    rw [hdc] at h2
    exact Bool.noConfusion h2

lemma process_category_tr_proj (dec : String → Course → Decision) (cat : String) :
    ∀ (cs s : List Course),
      ((process_category_tr dec cat cs s).1, (process_category_tr dec cat cs s).2.1) =
        process_category dec cat cs s := by
  intro cs
  induction cs with
  | nil => intro s; rfl
  | cons c rest ih =>
    intro s
    simp only [process_category_tr, process_category]
    by_cases h : has_conflict_with_schedule c s = true
    · simp [h, ih s]
    · simp only [Bool.not_eq_true] at h
      cases hd : dec cat c <;> simp [h, hd, ih s]

lemma process_courses_tr_proj (dec : String → Course → Decision) :
    ∀ (catalog : Catalog) (s : List Course),
      (process_courses_tr dec catalog s).1 = process_courses dec catalog s := by
  intro catalog
  induction catalog with
  | nil => intro s; rfl
  | cons e rest ih =>
    intro s
    obtain ⟨cat, cs⟩ := e
    simp only [process_courses_tr, process_courses]
    rcases hres : process_category_tr dec cat cs s with ⟨s2, flag, tr⟩
    have hproj := process_category_tr_proj dec cat cs s
    rw [hres] at hproj
    rw [← hproj]
    cases flag <;> simp [ih s2]

lemma process_category_schedule_cases (dec : String → Course → Decision) (cat : String)
    (s : List Course) :
    ∀ cs : List Course,
      (process_category dec cat cs s).1 = s ∨
        ∃ c, c ∈ cs ∧ has_conflict_with_schedule c s = false ∧
          (process_category dec cat cs s).1 = s ++ [c] := by
  intro cs
  induction cs with
  | nil => exact Or.inl rfl
  | cons c rest ih =>
    simp only [process_category]
    by_cases h : has_conflict_with_schedule c s = true
    · simp only [h, if_true]
      rcases ih with h1 | ⟨c2, hc2, hnc, he⟩
      · exact Or.inl h1
      · exact Or.inr ⟨c2, List.mem_cons_of_mem _ hc2, hnc, he⟩
    · simp only [Bool.not_eq_true] at h
      simp only [h, Bool.false_eq_true, if_false]
      cases hd : dec cat c
      · exact Or.inr ⟨c, List.mem_cons_self _ _, h, rfl⟩
      · rcases ih with h1 | ⟨c2, hc2, hnc, he⟩
        · exact Or.inl h1
        · exact Or.inr ⟨c2, List.mem_cons_of_mem _ hc2, hnc, he⟩
      · exact Or.inl rfl

lemma process_category_tr_presented (dec : String → Course → Decision) (cat : String) :
    ∀ (cs s : List Course) (p : Presented),
      p ∈ (process_category_tr dec cat cs s).2.2 →
        has_conflict_with_schedule p.course p.schedule = false := by
  intro cs
  induction cs with
  | nil => intro s p hp; simp [process_category_tr] at hp
  | cons c rest ih =>
    intro s p hp
    simp only [process_category_tr] at hp
    by_cases h : has_conflict_with_schedule c s = true
    · simp only [h, if_true] at hp
      exact ih s p hp
    · simp only [Bool.not_eq_true] at h
      simp only [h, Bool.false_eq_true, if_false] at hp
      cases hd : dec cat c <;> rw [hd] at hp
      · simp only [List.mem_singleton] at hp
        subst hp
        exact h
      · simp only [List.mem_cons] at hp
        rcases hp with hp | hp
        · subst hp; exact h
        · exact ih s p hp
      · simp only [List.mem_singleton] at hp
        subst hp
        exact h

lemma process_courses_tr_presented (dec : String → Course → Decision) :
    ∀ (catalog : Catalog) (s : List Course) (p : Presented),
      p ∈ (process_courses_tr dec catalog s).2 →
        has_conflict_with_schedule p.course p.schedule = false := by
  intro catalog
  induction catalog with
  | nil => intro s p hp; simp [process_courses_tr] at hp
  | cons e rest ih =>
    intro s p hp
    obtain ⟨cat, cs⟩ := e
    simp only [process_courses_tr] at hp
    rcases hres : process_category_tr dec cat cs s with ⟨s2, flag, tr⟩
    rw [hres] at hp
    have hcat : ∀ q ∈ tr, has_conflict_with_schedule q.course q.schedule = false := by
      intro q hq
      exact process_category_tr_presented dec cat cs s q (by rw [hres]; exact hq)
    cases flag
    · simp only [List.mem_append] at hp
      rcases hp with hp | hp
      · exact hcat p hp
      · exact ih s2 p hp
    · exact hcat p hp

lemma no_conflicts_append (s : List Course) (c : Course)
    (hs : schedule_no_conflicts s) (hc : has_conflict_with_schedule c s = false) :
    schedule_no_conflicts (s ++ [c]) := by
  unfold schedule_no_conflicts at hs ⊢
  rw [List.pairwise_append]
  refine ⟨hs, List.pairwise_singleton _ _, ?_⟩
  intro a ha b hb
  simp only [List.mem_singleton] at hb
  subst hb
  have hna : ¬(b.has_time_conflict a = true) := by
    simp only [has_conflict_with_schedule, List.any_eq_false] at hc
    exact hc a ha
  rw [course_conflict_symm] at hna
  exact Bool.not_eq_true _ |>.mp hna

lemma process_category_no_conflicts (dec : String → Course → Decision) (cat : String)
    (s : List Course) (hs : schedule_no_conflicts s) :
    ∀ cs : List Course, schedule_no_conflicts (process_category dec cat cs s).1 := by
  intro cs
  induction cs with
  | nil => exact hs
  | cons c rest ih =>
    simp only [process_category]
    by_cases h : has_conflict_with_schedule c s = true
    · simp only [h, if_true]
      exact ih
    · simp only [Bool.not_eq_true] at h
      simp only [h, Bool.false_eq_true, if_false]
      cases hd : dec cat c
      · exact no_conflicts_append s c hs h
      · exact ih
      · exact hs

lemma process_courses_no_conflicts (dec : String → Course → Decision) :
    ∀ (catalog : Catalog) (s : List Course), schedule_no_conflicts s →
      schedule_no_conflicts (process_courses dec catalog s) := by
  intro catalog
  induction catalog with
  | nil => intro s hs; exact hs
  | cons e rest ih =>
    intro s hs
    obtain ⟨cat, cs⟩ := e
    simp only [process_courses]
    rcases hres : process_category dec cat cs s with ⟨s2, flag⟩
    have hs2 : schedule_no_conflicts s2 := by
      have := process_category_no_conflicts dec cat s hs cs
      rw [hres] at this
      exact this
    cases flag
    · exact ih s2 hs2
    · exact hs2

lemma process_category_accept_append (cat : String) :
    ∀ (cs cs2 s : List Course),
      process_category accept_first_compatible cat (cs ++ cs2) s =
        if (process_category accept_first_compatible cat cs s).1 = s
        then process_category accept_first_compatible cat cs2 s
        else process_category accept_first_compatible cat cs s := by
  intro cs
  induction cs with
  | nil => intro cs2 s; simp [process_category]
  | cons c rest ih =>
    intro cs2 s
    simp only [List.cons_append, process_category]
    by_cases h : has_conflict_with_schedule c s = true
    · simp only [h, if_true]
      exact ih cs2 s
    · simp only [Bool.not_eq_true] at h
      simp only [h, Bool.false_eq_true, if_false, accept_first_compatible]
      rw [if_neg]
      intro hcontra
      have : ([c] : List Course) = [] := by
        have h2 : s ++ [c] = s ++ [] := by simp only [List.append_nil]; exact hcontra
        exact List.append_cancel_left h2
      simp at this

lemma process_category_accept_dup (cat : String) (cs s : List Course) :
    process_category accept_first_compatible cat (cs ++ cs) s =
      process_category accept_first_compatible cat cs s := by
  rw [process_category_accept_append]
  exact ite_self _

lemma process_category_accept_trip (cat : String) (cs s : List Course) :
    process_category accept_first_compatible cat (cs ++ (cs ++ cs)) s =
      process_category accept_first_compatible cat cs s := by
  rw [process_category_accept_append, process_category_accept_dup]
  exact ite_self _

lemma digit_char_facts {c : Char} (h : c ∈ digitChars) :
    Char.isDigit c = true ∧ Char.toLower c = c ∧ pyIsWs c = false ∧
      c ≠ 'a' ∧ c ≠ 'p' ∧ c ≠ ':' ∧ c ≠ '+' ∧ c ≠ '-' := by
  fin_cases h <;> exact ⟨by decide, by decide, by decide, by decide, by decide, by decide,
    by decide, by decide⟩

lemma isPrefixOf_self (l : List Char) : l.isPrefixOf l = true := by
  induction l with
  | nil => rfl
  | cons c rest ih => simp [List.isPrefixOf_cons₂, ih]

lemma containsSub_append_self (l p : List Char) : containsSub (l ++ p) p = true := by
  induction l with
  | nil =>
    cases p with
    | nil => rfl
    | cons c r => simp [containsSub, isPrefixOf_self]
  | cons c rest ih => simp [containsSub, ih]

lemma containsSub_pat2_eq_false {a b : Char} {l : List Char} (h : ∀ c ∈ l, c ≠ a) :
    containsSub l [a, b] = false := by
  induction l with
  | nil => rfl
  | cons c rest ih =>
    have hca : c ≠ a := h c (List.mem_cons_self _ _)
    simp only [containsSub, List.isPrefixOf_cons₂, Bool.or_eq_false_iff]
    constructor
    · have hba : (a == c) = false := by simp [Ne.symm hca]
      simp [hba]
    · exact ih (fun d hd => h d (List.mem_cons_of_mem _ hd))

lemma removePat2_append {a b : Char} {l : List Char} (h : ∀ c ∈ l, c ≠ a) :
    removePat2 a b (l ++ [a, b]) = l := by
  induction l with
  | nil => simp [removePat2]
  | cons c rest ih =>
    have hca : c ≠ a := h c (List.mem_cons_self _ _)
    have ih2 := ih (fun d hd => h d (List.mem_cons_of_mem _ hd))
    cases rest with
    | nil =>
      simp only [List.nil_append, List.cons_append, removePat2]
      rw [if_neg (by simp [hca])]
      simp [removePat2]
    | cons d rest2 =>
      simp only [List.cons_append, removePat2]
      rw [if_neg (by simp [hca])]
      exact congrArg (fun t => c :: t) ih2

lemma splitOnChar_no_sep {sep : Char} {l : List Char} (h : ∀ c ∈ l, c ≠ sep) :
    splitOnChar sep l = [l] := by
  induction l with
  | nil => rfl
  | cons c rest ih =>
    have hcs : c ≠ sep := h c (List.mem_cons_self _ _)
    simp only [splitOnChar]
    rw [if_neg (by simp [hcs]), ih (fun d hd => h d (List.mem_cons_of_mem _ hd))]

lemma splitOnChar_middle {sep : Char} {l r : List Char}
    (hl : ∀ c ∈ l, c ≠ sep) (hr : ∀ c ∈ r, c ≠ sep) :
    splitOnChar sep (l ++ sep :: r) = [l, r] := by
  induction l with
  | nil =>
    simp [splitOnChar, splitOnChar_no_sep hr]
  | cons c rest ih =>
    have hcs : c ≠ sep := hl c (List.mem_cons_self _ _)
    have ih2 := ih (fun d hd => hl d (List.mem_cons_of_mem _ hd))
    simp only [List.cons_append, splitOnChar]
    rw [if_neg hcs]
    rw [show rest ++ sep :: r = rest.append (sep :: r) from rfl] at ih2
    rw [ih2]

lemma map_toLower_fixed {l : List Char} (h : ∀ c ∈ l, Char.toLower c = c) :
    l.map Char.toLower = l := by
  induction l with
  | nil => rfl
  | cons c rest ih =>
    simp only [List.map_cons, h c (List.mem_cons_self _ _),
      ih (fun d hd => h d (List.mem_cons_of_mem _ hd))]

lemma dropWhile_eq_self {p : Char → Bool} {l : List Char} (h : ∀ c ∈ l, p c = false) :
    l.dropWhile p = l := by
  cases l with
  | nil => rfl
  | cons c rest => simp [List.dropWhile_cons, h c (List.mem_cons_self _ _)]

lemma pyStripChars_eq_self {l : List Char} (h : ∀ c ∈ l, pyIsWs c = false) :
    pyStripChars l = l := by
  unfold pyStripChars
  rw [dropWhile_eq_self h, dropWhile_eq_self (fun c hc => h c (List.mem_reverse.mp hc)),
    List.reverse_reverse]

lemma pyInt_digits {l : List Char} (hne : l ≠ []) (hd : ∀ c ∈ l, c ∈ digitChars) :
    pyInt l = some (digitsVal l : ℤ) := by
  have hstrip : pyStripChars l = l :=
    pyStripChars_eq_self (fun c hc => (digit_char_facts (hd c hc)).2.2.1)
  have hall : l.all Char.isDigit = true :=
    List.all_eq_true.mpr (fun c hc => (digit_char_facts (hd c hc)).1)
  unfold pyInt
  rw [hstrip]
  cases l with
  | nil => exact absurd rfl hne
  | cons c rest =>
    have hfacts := digit_char_facts (hd c (List.mem_cons_self _ _))
    show (if c = '+' then pyIntDigits rest
      else if c = '-' then Option.map (fun n => -n) (pyIntDigits rest)
      else pyIntDigits (c :: rest)) = some (digitsVal (c :: rest) : ℤ)
    rw [if_neg hfacts.2.2.2.2.2.2.1, if_neg hfacts.2.2.2.2.2.2.2]
    unfold pyIntDigits
    rw [if_pos ⟨by simp, hall⟩]

lemma convert_am_eval (hs ms : List Char) (hhne : hs ≠ []) (hmne : ms ≠ [])
    (hhd : ∀ c ∈ hs, c ∈ digitChars) (hmd : ∀ c ∈ ms, c ∈ digitChars) :
    convert_time_to_float ⟨hs ++ ':' :: (ms ++ ['a', 'm'])⟩ =
      Except.ok ((Int.cast (if (digitsVal hs : ℤ) = 12 then 0 else (digitsVal hs : ℤ)) : ℚ) +
        ((digitsVal ms : ℤ) : ℚ) / 60) := by
  have hfix : ∀ c ∈ hs ++ ':' :: (ms ++ ['a', 'm']), Char.toLower c = c := by
    intro c hc
    simp only [List.mem_append, List.mem_cons] at hc
    rcases hc with hc | hc | hc | hc | hc | hc
    · exact (digit_char_facts (hhd c hc)).2.1
    · subst hc; decide
    · exact (digit_char_facts (hmd c hc)).2.1
    · subst hc; decide
    · subst hc; decide
    · exact absurd hc (List.not_mem_nil c)
  have hlow : (pyLower ⟨hs ++ ':' :: (ms ++ ['a', 'm'])⟩).data = hs ++ ':' :: (ms ++ ['a', 'm']) := by
    simp only [pyLower]
    exact map_toLower_fixed hfix
  have hassoc : hs ++ ':' :: (ms ++ ['a', 'm']) = (hs ++ ':' :: ms) ++ ['a', 'm'] := by
    simp
  have hna : ∀ c ∈ hs ++ ':' :: ms, c ≠ 'a' := by
    intro c hc
    simp only [List.mem_append, List.mem_cons] at hc
    rcases hc with hc | hc | hc
    · exact (digit_char_facts (hhd c hc)).2.2.2.1
    · subst hc; decide
    · exact (digit_char_facts (hmd c hc)).2.2.2.1
  have hcont : containsSub (hs ++ ':' :: (ms ++ ['a', 'm'])) ['a', 'm'] = true := by
    rw [hassoc]; exact containsSub_append_self _ _
  have hrem : removePat2 'a' 'm' (hs ++ ':' :: (ms ++ ['a', 'm'])) = hs ++ ':' :: ms := by
    rw [hassoc]; exact removePat2_append hna
  have hsplit : splitOnChar ':' (hs ++ ':' :: ms) = [hs, ms] :=
    splitOnChar_middle (fun c hc => (digit_char_facts (hhd c hc)).2.2.2.2.2.1)
      (fun c hc => (digit_char_facts (hmd c hc)).2.2.2.2.2.1)
  simp only [convert_time_to_float, hlow, hcont, if_true, hrem, hsplit,
    pyInt_digits hhne hhd, pyInt_digits hmne hmd]

lemma convert_pm_eval (hs ms : List Char) (hhne : hs ≠ []) (hmne : ms ≠ [])
    (hhd : ∀ c ∈ hs, c ∈ digitChars) (hmd : ∀ c ∈ ms, c ∈ digitChars) :
    convert_time_to_float ⟨hs ++ ':' :: (ms ++ ['p', 'm'])⟩ =
      Except.ok ((Int.cast (if (digitsVal hs : ℤ) ≠ 12 then (digitsVal hs : ℤ) + 12
          else (digitsVal hs : ℤ)) : ℚ) +
        ((digitsVal ms : ℤ) : ℚ) / 60) := by
  have hfix : ∀ c ∈ hs ++ ':' :: (ms ++ ['p', 'm']), Char.toLower c = c := by
    intro c hc
    simp only [List.mem_append, List.mem_cons] at hc
    rcases hc with hc | hc | hc | hc | hc | hc
    · exact (digit_char_facts (hhd c hc)).2.1
    · subst hc; decide
    · exact (digit_char_facts (hmd c hc)).2.1
    · subst hc; decide
    · subst hc; decide
    · exact absurd hc (List.not_mem_nil c)
  have hlow : (pyLower ⟨hs ++ ':' :: (ms ++ ['p', 'm'])⟩).data = hs ++ ':' :: (ms ++ ['p', 'm']) := by
    simp only [pyLower]
    exact map_toLower_fixed hfix
  have hassoc : hs ++ ':' :: (ms ++ ['p', 'm']) = (hs ++ ':' :: ms) ++ ['p', 'm'] := by
    simp
  have hnoa : ∀ c ∈ hs ++ ':' :: (ms ++ ['p', 'm']), c ≠ 'a' := by
    intro c hc
    simp only [List.mem_append, List.mem_cons] at hc
    rcases hc with hc | hc | hc | hc | hc | hc
    · exact (digit_char_facts (hhd c hc)).2.2.2.1
    · subst hc; decide
    · exact (digit_char_facts (hmd c hc)).2.2.2.1
    · subst hc; decide
    · subst hc; decide
    · exact absurd hc (List.not_mem_nil c)
  have hnp : ∀ c ∈ hs ++ ':' :: ms, c ≠ 'p' := by
    intro c hc
    simp only [List.mem_append, List.mem_cons] at hc
    rcases hc with hc | hc | hc
    · exact (digit_char_facts (hhd c hc)).2.2.2.2.1
    · subst hc; decide
    · exact (digit_char_facts (hmd c hc)).2.2.2.2.1
  have hcontA : containsSub (hs ++ ':' :: (ms ++ ['p', 'm'])) ['a', 'm'] = false :=
    containsSub_pat2_eq_false hnoa
  have hcontP : containsSub (hs ++ ':' :: (ms ++ ['p', 'm'])) ['p', 'm'] = true := by
    rw [hassoc]; exact containsSub_append_self _ _
  have hrem : removePat2 'p' 'm' (hs ++ ':' :: (ms ++ ['p', 'm'])) = hs ++ ':' :: ms := by
    rw [hassoc]; exact removePat2_append hnp
  have hsplit : splitOnChar ':' (hs ++ ':' :: ms) = [hs, ms] :=
    splitOnChar_middle (fun c hc => (digit_char_facts (hhd c hc)).2.2.2.2.2.1)
      (fun c hc => (digit_char_facts (hmd c hc)).2.2.2.2.2.1)
  simp only [convert_time_to_float, hlow, hcontA, hcontP, Bool.false_eq_true, if_false, if_true,
    hrem, hsplit, pyInt_digits hhne hhd, pyInt_digits hmne hmd]

lemma convert_no_am_pm (s : String)
    (ha : containsSub (pyLower s).data ['a', 'm'] = false)
    (hp : containsSub (pyLower s).data ['p', 'm'] = false) :
    convert_time_to_float s = Except.error TimeParseError.invalidTimeFormat := by
  simp only [convert_time_to_float, ha, hp, Bool.false_eq_true, if_false]

/-- C10: conflict detection is symmetric, at the time-slot level and at the
course level. -/
theorem C10_conflict_symmetric :
    (∀ a b : TimeSlot, a.has_time_conflict b = b.has_time_conflict a) ∧
    (∀ c d : Course, c.has_time_conflict d = d.has_time_conflict c) :=
  ⟨slot_conflict_symm, course_conflict_symm⟩

/-- C1: two time slots conflict iff they share a weekday character and
their half-open time ranges overlap; touching endpoints are not a conflict,
and disjoint day sets never conflict. -/
theorem C1_conflict_characterization (a b : TimeSlot) :
    (a.has_time_conflict b = true ↔
      ((∃ d, d ∈ a.days.data ∧ d ∈ b.days.data) ∧
        ¬(a.end_time ≤ b.start_time ∨ a.start_time ≥ b.end_time))) ∧
    (a.end_time = b.start_time → a.has_time_conflict b = false) ∧
    ((∀ d, d ∈ a.days.data → d ∉ b.days.data) → a.has_time_conflict b = false) := by
  refine ⟨has_time_conflict_iff a b, ?_, ?_⟩
  · intro h
    rw [← Bool.not_eq_true, has_time_conflict_iff]
    rintro ⟨-, hov⟩
    exact hov (Or.inl (le_of_eq h))
  · intro h
    rw [← Bool.not_eq_true, has_time_conflict_iff]
    rintro ⟨⟨d, hda, hdb⟩, -⟩
    exact h d hda hdb

/-- Witness for C1 at concrete slots: Monday 9-10 versus Monday 10-11 do
not conflict (touching endpoints), Monday 9-11 versus Monday 10-12 do, and
Monday versus Tuesday never conflict. -/
theorem C1_conflict_characterization_witness :
    TimeSlot.has_time_conflict ⟨"M", 9, 10⟩ ⟨"M", 10, 11⟩ = false ∧
    TimeSlot.has_time_conflict ⟨"M", 9, 11⟩ ⟨"M", 10, 12⟩ = true ∧
    TimeSlot.has_time_conflict ⟨"M", 9, 10⟩ ⟨"T", 9, 10⟩ = false := by
  refine ⟨(C1_conflict_characterization _ _).2.1 rfl, ?_, ?_⟩
  · exact (C1_conflict_characterization ⟨"M", 9, 11⟩ ⟨"M", 10, 12⟩).1.mpr
      ⟨⟨'M', by decide, by decide⟩, by push_neg; constructor <;> norm_num⟩
  · exact (C1_conflict_characterization _ _).2.2 (by decide)

/-- C8 counterexample: `TimeSlot.__init__` accepts `start_time = 10`,
`end_time = 9` (start ≥ end) without any error, storing the values as
given, so an interval violating `start < end` exists. -/
theorem C8_counterexample :
    TimeSlot.init "M" 10 9 = ⟨"M", 10, 9⟩ ∧
    (TimeSlot.init "M" 10 9).end_time ≤ (TimeSlot.init "M" 10 9).start_time := by
  refine ⟨rfl, ?_⟩
  show (9 : ℚ) ≤ 10
  norm_num

/-- C8 amended: the `TimeSlot` constructor performs no validation at all;
even when `start_time ≥ end_time` it succeeds and stores the arguments
unchanged (no `InvalidInterval` error exists in the program). -/
theorem C8_constructor_never_rejects (days : String) (s e : ℚ) (h : e ≤ s) :
    TimeSlot.init days s e = ⟨days, s, e⟩ := rfl

/-- Witness for C8 amended at `days = "M"`, `start = 10`, `end = 9`. -/
theorem C8_constructor_never_rejects_witness :
    (9 : ℚ) ≤ 10 ∧ TimeSlot.init "M" 10 9 = ⟨"M", 10, 9⟩ :=
  ⟨by norm_num, C8_constructor_never_rejects "M" 10 9 (by norm_num)⟩

/-- C2: the selection walk presents categories in catalog order and courses
in input order; a course conflicting with the accumulated schedule is
skipped without being presented; accepting appends the course and ends the
category (so a category adds at most one course); rejecting moves on to the
next course of the same category; a category that accepts nothing leaves
the schedule unchanged, which is not an error. -/
theorem C2_selection_walk (dec : String → Course → Decision) (category : String)
    (course : Course) (rest cs schedule : List Course) (catalog : Catalog) :
    (has_conflict_with_schedule course schedule = true →
      process_category_tr dec category (course :: rest) schedule =
        process_category_tr dec category rest schedule) ∧
    (has_conflict_with_schedule course schedule = false →
      dec category course = Decision.accept →
      process_category_tr dec category (course :: rest) schedule =
        (schedule ++ [course], false, [⟨category, course, schedule⟩])) ∧
    (has_conflict_with_schedule course schedule = false →
      dec category course = Decision.reject →
      process_category_tr dec category (course :: rest) schedule =
        ((process_category_tr dec category rest schedule).1,
          (process_category_tr dec category rest schedule).2.1,
          ⟨category, course, schedule⟩ :: (process_category_tr dec category rest schedule).2.2)) ∧
    ((process_category dec category cs schedule).1 = schedule ∨
      ∃ c, c ∈ cs ∧ has_conflict_with_schedule c schedule = false ∧
        (process_category dec category cs schedule).1 = schedule ++ [c]) ∧
    (∀ p : Presented, p ∈ (process_courses_tr dec catalog schedule).2 →
      has_conflict_with_schedule p.course p.schedule = false) ∧
    (process_courses_tr dec ((category, cs) :: catalog) schedule =
      match process_category_tr dec category cs schedule with
      | (schedule2, true, tr) => (schedule2, tr)
      | (schedule2, false, tr) =>
        ((process_courses_tr dec catalog schedule2).1,
          tr ++ (process_courses_tr dec catalog schedule2).2)) ∧
    ((process_category_tr dec category cs schedule).1 =
        (process_category dec category cs schedule).1 ∧
      (process_courses_tr dec catalog schedule).1 = process_courses dec catalog schedule) := by
  have h1 : has_conflict_with_schedule course schedule = true →
      process_category_tr dec category (course :: rest) schedule =
        process_category_tr dec category rest schedule := by
    intro h
    simp [process_category_tr, h]
  have h2 : has_conflict_with_schedule course schedule = false →
      dec category course = Decision.accept →
      process_category_tr dec category (course :: rest) schedule =
        (schedule ++ [course], false, [⟨category, course, schedule⟩]) := by
    intro h hd
    simp [process_category_tr, h, hd]
  have h3 : has_conflict_with_schedule course schedule = false →
      dec category course = Decision.reject →
      process_category_tr dec category (course :: rest) schedule =
        ((process_category_tr dec category rest schedule).1,
          (process_category_tr dec category rest schedule).2.1,
          ⟨category, course, schedule⟩ :: (process_category_tr dec category rest schedule).2.2) := by
    intro h hd
    simp [process_category_tr, h, hd]
  have h6 : process_courses_tr dec ((category, cs) :: catalog) schedule =
      match process_category_tr dec category cs schedule with
      | (schedule2, true, tr) => (schedule2, tr)
      | (schedule2, false, tr) =>
        ((process_courses_tr dec catalog schedule2).1,
          tr ++ (process_courses_tr dec catalog schedule2).2) := by
    simp only [process_courses_tr]
  exact ⟨h1, h2, h3, process_category_schedule_cases dec category schedule cs,
    process_courses_tr_presented dec catalog schedule, h6,
    congrArg Prod.fst (process_category_tr_proj dec category cs schedule),
    process_courses_tr_proj dec catalog schedule⟩

/-- Witness for C2 at concrete inputs: a course conflicting with the
schedule is skipped with nothing presented, an accepted course is appended
and recorded as presented, a rejected course is presented and passed
over. -/
theorem C2_selection_walk_witness :
    process_category_tr accept_first_compatible "Math"
        [⟨"A", [⟨"M", 9, 10⟩]⟩] [⟨"A", [⟨"M", 9, 10⟩]⟩] =
      ([⟨"A", [⟨"M", 9, 10⟩]⟩], false, []) ∧
    process_category_tr accept_first_compatible "Math" [⟨"B", []⟩] [] =
      ([⟨"B", []⟩], false, [⟨"Math", ⟨"B", []⟩, []⟩]) ∧
    process_category_tr (fun _ _ => Decision.reject) "Math" [⟨"B", []⟩] [] =
      ([], false, [⟨"Math", ⟨"B", []⟩, []⟩]) := by
  have hconf : has_conflict_with_schedule ⟨"A", [⟨"M", 9, 10⟩]⟩ [⟨"A", [⟨"M", 9, 10⟩]⟩] = true := by
    simp only [has_conflict_with_schedule, List.any_cons, List.any_nil, Bool.or_false]
    rw [course_conflict_exists]
    refine ⟨_, List.mem_singleton.mpr rfl, _, List.mem_singleton.mpr rfl,
      (has_time_conflict_iff _ _).mpr ⟨⟨'M', by simp, by simp⟩, ?_⟩⟩
    push_neg
    constructor <;> norm_num
  refine ⟨?_, ?_, ?_⟩
  · exact ((C2_selection_walk accept_first_compatible "Math" ⟨"A", [⟨"M", 9, 10⟩]⟩ [] []
      [⟨"A", [⟨"M", 9, 10⟩]⟩] []).1 hconf).trans rfl
  · exact (C2_selection_walk accept_first_compatible "Math" ⟨"B", []⟩ [] [] [] []).2.1 rfl rfl
  · exact ((C2_selection_walk (fun _ _ => Decision.reject) "Math" ⟨"B", []⟩ [] [] [] []).2.2.1
      rfl rfl).trans rfl

/-- C3: a Cancel answer (abort) halts the whole walk immediately: the
aborting category leaves the schedule exactly as accumulated, nothing after
the aborted course is visited, and no later category is processed. -/
theorem C3_abort_halts (dec : String → Course → Decision) (category : String) (course : Course)
    (rest cs schedule : List Course) (catalog : Catalog) :
    (has_conflict_with_schedule course schedule = false →
      dec category course = Decision.abort →
      process_category_tr dec category (course :: rest) schedule =
        (schedule, true, [⟨category, course, schedule⟩])) ∧
    ((process_category dec category cs schedule).2 = true →
      (process_category dec category cs schedule).1 = schedule) ∧
    (∀ schedule2, process_category dec category cs schedule = (schedule2, true) →
      process_courses dec ((category, cs) :: catalog) schedule = schedule2) := by
  have habort : ∀ cs2 : List Course, (process_category dec category cs2 schedule).2 = true →
      (process_category dec category cs2 schedule).1 = schedule := by
    intro cs2
    induction cs2 with
    | nil => intro h; exact absurd h (by simp [process_category])
    | cons c r ih =>
      simp only [process_category]
      by_cases h : has_conflict_with_schedule c schedule = true
      · simp only [h, if_true]
        exact ih
      · simp only [Bool.not_eq_true] at h
        simp only [h, Bool.false_eq_true, if_false]
        cases hd : dec category c
        · intro h2; simp at h2
        · exact ih
        · intro _; rfl
  refine ⟨?_, habort cs, ?_⟩
  · intro h hd
    simp [process_category_tr, h, hd]
  · intro schedule2 hres
    simp [process_courses, hres]

/-- Witness for C3: aborting on the first course of the first category
returns the empty schedule and never reaches the second category. -/
theorem C3_abort_halts_witness :
    process_category_tr (fun _ _ => Decision.abort) "Math" [⟨"B", []⟩] [] =
      ([], true, [⟨"Math", ⟨"B", []⟩, []⟩]) ∧
    process_courses (fun _ _ => Decision.abort)
      [("Math", [⟨"B", []⟩]), ("Art", [⟨"C", []⟩])] [] = [] := by
  refine ⟨(C3_abort_halts (fun _ _ => Decision.abort) "Math" ⟨"B", []⟩ [] [] [] []).1 rfl rfl, ?_⟩
  exact (C3_abort_halts (fun _ _ => Decision.abort) "Math" ⟨"B", []⟩ [] [⟨"B", []⟩] []
    [("Art", [⟨"C", []⟩])]).2.2 [] rfl

/-- C4: the walk preserves the invariant that the accumulated schedule is
pairwise non-conflicting, both across one category and across the whole
catalog, so the returned schedule is pairwise non-conflicting. -/
theorem C4_schedule_pairwise_nonconflicting (dec : String → Course → Decision)
    (catalog : Catalog) (category : String) (cs schedule : List Course)
    (h : schedule_no_conflicts schedule) :
    schedule_no_conflicts (process_courses dec catalog schedule) ∧
    schedule_no_conflicts (process_category dec category cs schedule).1 :=
  ⟨process_courses_no_conflicts dec catalog schedule h,
    process_category_no_conflicts dec category schedule h cs⟩

/-- Witness for C4 at a concrete walk from the empty schedule. -/
theorem C4_schedule_pairwise_nonconflicting_witness :
    schedule_no_conflicts (process_courses accept_first_compatible
      [("Math", [⟨"A", []⟩]), ("Art", [⟨"C", []⟩])] []) :=
  (C4_schedule_pairwise_nonconflicting accept_first_compatible
    [("Math", [⟨"A", []⟩]), ("Art", [⟨"C", []⟩])] "Math" [] []
    (by simp [schedule_no_conflicts])).1

/-- C9: walking the catalog with the always-accept decision function gives
the same schedule on the first `generate_schedule` run (where the loader
has appended the file's courses a second time) and on the second run (a
third copy appended): the duplicated course lists never change which course
of a category is accepted first, and both runs start from the empty
schedule. -/
theorem C9_second_run_identical (file : Catalog) :
    generate_schedule accept_first_compatible (coursesAfterLoads 2 file) =
      generate_schedule accept_first_compatible (coursesAfterLoads 3 file) := by
  unfold generate_schedule
  suffices h : ∀ s : List Course,
      process_courses accept_first_compatible (coursesAfterLoads 2 file) s =
        process_courses accept_first_compatible (coursesAfterLoads 3 file) s from h []
  induction file with
  | nil => intro s; rfl
  | cons e rest ih =>
    intro s
    obtain ⟨cat, l⟩ := e
    simp only [coursesAfterLoads, List.map_cons] at ih ⊢
    simp only [process_courses]
    have h2 : selfAppend 2 l = l ++ l := by simp [selfAppend]
    have h3 : selfAppend 3 l = l ++ (l ++ l) := by simp [selfAppend]
    rw [h2, h3, process_category_accept_dup cat l s, process_category_accept_trip cat l s]
    rcases hres : process_category accept_first_compatible cat l s with ⟨s2, flag⟩
    cases flag
    · exact ih s2
    · rfl

/-- C6: `"12:00am"` parses to 0, `"12:30pm"` to 12.5, `"11:15pm"` to 23.25;
in general an `H:MM` am literal maps hour 12 to 0 and a pm literal adds 12
to any hour other than 12, the value being `hour + minute / 60`; an input
containing neither `am` nor `pm` (case-insensitive) raises the
invalid-time-format error instead of coercing to a default. -/
theorem C6_time_parsing_values :
    convert_time_to_float "12:00am" = Except.ok 0 ∧
    convert_time_to_float "12:30pm" = Except.ok (25 / 2) ∧
    convert_time_to_float "11:15pm" = Except.ok (93 / 4) ∧
    (∀ hs ms : List Char, hs ≠ [] → ms ≠ [] →
      (∀ c ∈ hs, c ∈ digitChars) → (∀ c ∈ ms, c ∈ digitChars) →
      convert_time_to_float ⟨hs ++ ':' :: (ms ++ ['a', 'm'])⟩ =
        Except.ok ((Int.cast (if (digitsVal hs : ℤ) = 12 then 0 else (digitsVal hs : ℤ)) : ℚ) +
          ((digitsVal ms : ℤ) : ℚ) / 60) ∧
      convert_time_to_float ⟨hs ++ ':' :: (ms ++ ['p', 'm'])⟩ =
        Except.ok ((Int.cast (if (digitsVal hs : ℤ) ≠ 12 then (digitsVal hs : ℤ) + 12
            else (digitsVal hs : ℤ)) : ℚ) +
          ((digitsVal ms : ℤ) : ℚ) / 60)) ∧
    (∀ s : String, containsSub (pyLower s).data ['a', 'm'] = false →
      containsSub (pyLower s).data ['p', 'm'] = false →
      convert_time_to_float s = Except.error TimeParseError.invalidTimeFormat) := by
  refine ⟨?_, ?_, ?_,
    fun hs ms h1 h2 h3 h4 =>
      ⟨convert_am_eval hs ms h1 h2 h3 h4, convert_pm_eval hs ms h1 h2 h3 h4⟩,
    convert_no_am_pm⟩
  · have h : convert_time_to_float "12:00am" =
        Except.ok (((0 : ℤ) : ℚ) + ((0 : ℤ) : ℚ) / 60) := rfl
    rw [h]
    simp only [Except.ok.injEq]
    norm_num
  · have h : convert_time_to_float "12:30pm" =
        Except.ok (((12 : ℤ) : ℚ) + ((30 : ℤ) : ℚ) / 60) := rfl
    rw [h]
    simp only [Except.ok.injEq]
    norm_num
  · have h : convert_time_to_float "11:15pm" =
        Except.ok (((23 : ℤ) : ℚ) + ((15 : ℤ) : ℚ) / 60) := rfl
    rw [h]
    simp only [Except.ok.injEq]
    norm_num

/-- Witness for C6 at concrete literals. -/
theorem C6_time_parsing_values_witness :
    convert_time_to_float "9:05am" =
      Except.ok ((Int.cast (if (digitsVal ['9'] : ℤ) = 12 then 0 else (digitsVal ['9'] : ℤ)) : ℚ) +
        ((digitsVal ['0', '5'] : ℤ) : ℚ) / 60) ∧
    convert_time_to_float "12:00" = Except.error TimeParseError.invalidTimeFormat := by
  constructor
  · have h := (C6_time_parsing_values.2.2.2.1 ['9'] ['0', '5']
      (by decide) (by decide) (by decide) (by decide)).1
    exact (show convert_time_to_float "9:05am" =
      convert_time_to_float ⟨['9'] ++ ':' :: (['0', '5'] ++ ['a', 'm'])⟩ from rfl).trans h
  · exact C6_time_parsing_values.2.2.2.2 "12:00" (by decide) (by decide)

/-- C7 counterexample: `"13:00pm"` is not of the claimed accepted shape
(hour 1-12), yet `convert_time_to_float` accepts it and returns 25.0
instead of failing with the invalid-time-format error. -/
theorem C7_counterexample_out_of_range :
    convert_time_to_float "13:00pm" = Except.ok 25 := by
  have h : convert_time_to_float "13:00pm" =
      Except.ok (((25 : ℤ) : ℚ) + ((0 : ℤ) : ℚ) / 60) := rfl
  rw [h]
  simp only [Except.ok.injEq]
  norm_num

/-- C7 (amended): the parser accepts every `H:MM` am/pm literal built from
nonempty digit strings, without enforcing the hour 1-12 or minute 00-59
bounds (`"13:00pm"` gives 25.0 and `"0:75am"` gives 1.25); an input
containing neither `am` nor `pm` fails with the invalid-time-format error,
while an am/pm input with a malformed digit layout fails with a different
`ValueError`. -/
theorem C7_parsing_shape :
    (∀ hs ms : List Char, hs ≠ [] → ms ≠ [] →
      (∀ c ∈ hs, c ∈ digitChars) → (∀ c ∈ ms, c ∈ digitChars) →
      (∃ q : ℚ, convert_time_to_float ⟨hs ++ ':' :: (ms ++ ['a', 'm'])⟩ = Except.ok q) ∧
      (∃ q : ℚ, convert_time_to_float ⟨hs ++ ':' :: (ms ++ ['p', 'm'])⟩ = Except.ok q)) ∧
    convert_time_to_float "13:00pm" = Except.ok 25 ∧
    convert_time_to_float "0:75am" = Except.ok (5 / 4) ∧
    (∀ s : String, containsSub (pyLower s).data ['a', 'm'] = false →
      containsSub (pyLower s).data ['p', 'm'] = false →
      convert_time_to_float s = Except.error TimeParseError.invalidTimeFormat) ∧
    convert_time_to_float "9am" = Except.error TimeParseError.valueError := by
  refine ⟨fun hs ms h1 h2 h3 h4 =>
      ⟨⟨_, convert_am_eval hs ms h1 h2 h3 h4⟩, ⟨_, convert_pm_eval hs ms h1 h2 h3 h4⟩⟩,
    ?_, ?_, convert_no_am_pm, rfl⟩
  · have h : convert_time_to_float "13:00pm" =
        Except.ok (((25 : ℤ) : ℚ) + ((0 : ℤ) : ℚ) / 60) := rfl
    rw [h]
    simp only [Except.ok.injEq]
    norm_num
  · have h : convert_time_to_float "0:75am" =
        Except.ok (((0 : ℤ) : ℚ) + ((75 : ℤ) : ℚ) / 60) := rfl
    rw [h]
    simp only [Except.ok.injEq]
    norm_num

/-- Witness for C7 (amended) at concrete digit strings. -/
theorem C7_parsing_shape_witness :
    (∃ q : ℚ, convert_time_to_float ⟨['9'] ++ ':' :: (['3', '0'] ++ ['a', 'm'])⟩ = Except.ok q) ∧
    convert_time_to_float "10:00" = Except.error TimeParseError.invalidTimeFormat :=
  ⟨(C7_parsing_shape.1 ['9'] ['3', '0'] (by decide) (by decide) (by decide) (by decide)).1,
    C7_parsing_shape.2.2.2.1 "10:00" (by decide) (by decide)⟩

/-- C5 (code bug): serializing a one-course catalog and reloading it loses
the course's time slots: the loader strips each line before testing
`startswith(" ")`, so the slot branch never fires and the reloaded catalog
differs from the original. -/
theorem C5_roundtrip_drops_slots :
    serializeCatalog [("Math", [⟨"101", [⟨"MWF", 9, 10⟩]⟩])] =
      ["Category: Math", "Course Number: 101", " MWF 9:00AM-10:00AM", ""] ∧
    load_courses_from_file ["Category: Math", "Course Number: 101", " MWF 9:00AM-10:00AM", ""] [] =
      Except.ok [("Math", [⟨"101", []⟩])] ∧
    ([("Math", [⟨"101", []⟩])] : Catalog) ≠ [("Math", [⟨"101", [⟨"MWF", 9, 10⟩]⟩])] := by
  refine ⟨?_, rfl, by decide⟩
  have hf9 : format_time 9 = "9:00AM" := by
    have h1 : pyTrunc (9 : ℚ) = 9 := by norm_num [pyTrunc]
    have h2 : pyTrunc (pyMod1 (9 : ℚ) * 60) = 0 := by norm_num [pyTrunc, pyMod1, pyFloorQ]
    simp only [format_time]
    rw [h1, h2]
    rfl
  have hf10 : format_time 10 = "10:00AM" := by
    have h1 : pyTrunc (10 : ℚ) = 10 := by norm_num [pyTrunc]
    have h2 : pyTrunc (pyMod1 (10 : ℚ) * 60) = 0 := by norm_num [pyTrunc, pyMod1, pyFloorQ]
    simp only [format_time]
    rw [h1, h2]
    rfl
  simp [serializeCatalog, serializeRecord, hf9, hf10]
